import Mathlib

/-
Verification of `warehouse_agent.py`: a conversational warehouse agent whose
core is an in-memory inventory ledger (a Python dict from item name to integer
quantity), three tool functions (`add_item`, `remove_item`, `get_inventory`),
a tool-call executor (`_execute_tool_call`), a dialogue controller
(`run_conversation`), and a transcript window trim in `main`.

The embedding below mirrors the Python source.  The global dict `inventory`
becomes an explicit association list threaded through every operation; Python
dict semantics (first-occurrence lookup, in-place update of an existing key,
append of a new key, deletion by key) are modelled by `lookup`, `setVal` and
`delKey`.  Python integers are `Int`.  JSON payloads returned by the tool
functions are modelled structurally (the `json.dumps` serialisation of the
dict literals in the source) by `Payload`.
-/

set_option autoImplicit false

namespace WarehouseAgent

/-- JSON values that can appear as tool-call argument values under the two
schemas of the catalog (`item_name : string`, `quantity : integer`).  `jnull`
stands for JSON `null` (Python `None`).  Other JSON shapes (floats, booleans,
lists, objects) are outside the modelled input space. -/
inductive JVal where
  | jstr (s : String)
  | jint (n : Int)
  | jnull
deriving DecidableEq

/-- Rendering of a JSON value inside a Python f-string (`str(x)`). -/
def JVal.render : JVal → String
  | .jstr s => s
  | .jint n => toString n
  | .jnull => "None"

/-- The inventory ledger: the Python dict `inventory` (line 34 of the source),
as an association list in insertion order.  Keys are the values the model
passed as `item_name` (Python uses them as dict keys without validation). -/
abbrev Ledger := List (JVal × Int)

/-- Python dict read `inventory[k]` / `inventory.get(k)`: the value at the
first entry with key `k`. -/
def lookup : Ledger → JVal → Option Int
  | [], _ => none
  | (k', v) :: rest, k => if k' = k then some v else lookup rest k

/-- Python dict write `inventory[k] = v`: replace the value of the existing
entry for `k` in place, or append a new entry at the end. -/
def setVal : Ledger → JVal → Int → Ledger
  | [], k, v => [(k, v)]
  | (k', v') :: rest, k, v =>
    if k' = k then (k', v) :: rest else (k', v') :: setVal rest k v

/-- Python dict delete `del inventory[k]`: drop the first entry with key `k`
(dict keys are unique, so this is the entry for `k`). -/
def delKey : Ledger → JVal → Ledger
  | [], _ => []
  | (k', v') :: rest, k => if k' = k then rest else (k', v') :: delKey rest k

/-- Every key occurs at most once, as in a Python dict.  Holds for every
ledger reachable from the empty dict through `setVal` and `delKey`. -/
def nodupKeys : Ledger → Bool
  | [] => true
  | (k, _) :: rest => (lookup rest k).isNone && nodupKeys rest

/-- The structured JSON payload a tool function serialises with `json.dumps`:
either `status` plus `message`, or (for `get_inventory`) `status` plus an
`inventory` field carrying the empty-warehouse marker string or the mapping. -/
inductive Payload where
  | msgPayload (status : String) (message : String)
  | invEmptyPayload (status : String) (inventory : String)
  | invMapPayload (status : String) (inventory : Ledger)
deriving DecidableEq

/-- The `status` field of a payload. -/
def Payload.status : Payload → String
  | .msgPayload st _ => st
  | .invEmptyPayload st _ => st
  | .invMapPayload st _ => st

/-- Message of a successful `add_item` (line 44 of the source). -/
def addedMsg (quantity : Int) (item_name : JVal) : String :=
  "Добавлено " ++ toString quantity ++ " шт. товара \x27" ++ item_name.render ++ "\x27."

/-- Message of `remove_item` when the item is absent (line 51). -/
def notFoundMsg (item_name : JVal) : String :=
  "Товар \x27" ++ item_name.render ++ "\x27 не найден."

/-- Message of `remove_item` when stock is insufficient (line 54); it reports
the currently stored quantity. -/
def insufficientMsg (item_name : JVal) (stored : Int) : String :=
  "Недостаточное количество товара \x27" ++ item_name.render ++ "\x27. В наличии: " ++
    toString stored ++ "."

/-- Message of a successful `remove_item` (line 61). -/
def removedMsg (quantity : Int) (item_name : JVal) : String :=
  "Удалено " ++ toString quantity ++ " шт. товара \x27" ++ item_name.render ++ "\x27."

/-- Marker `get_inventory` returns for an empty warehouse (line 67). -/
def emptyMarker : String := "Склад пуст."

/-- The tool function `add_item` (lines 39-44):
`inventory[item_name] = inventory.get(item_name, 0) + quantity`, then a
success payload.  No validation of either argument. -/
def add_item (inv : Ledger) (item_name : JVal) (quantity : Int) : Ledger × Payload :=
  (setVal inv item_name ((lookup inv item_name).getD 0 + quantity),
   .msgPayload "success" (addedMsg quantity item_name))

/-- The tool function `remove_item` (lines 46-61): error payload if the item
is absent; error payload reporting current stock if stored quantity is below
`quantity`; otherwise `inventory[item_name] -= quantity`, deleting the entry
when the result is exactly zero. -/
def remove_item (inv : Ledger) (item_name : JVal) (quantity : Int) : Ledger × Payload :=
  match lookup inv item_name with
  | none => (inv, .msgPayload "error" (notFoundMsg item_name))
  | some stored =>
    if stored < quantity then
      (inv, .msgPayload "error" (insufficientMsg item_name stored))
    else
      let inv' := setVal inv item_name (stored - quantity)
      if stored - quantity = 0 then
        (delKey inv' item_name, .msgPayload "success" (removedMsg quantity item_name))
      else
        (inv', .msgPayload "success" (removedMsg quantity item_name))

/-- The tool function `get_inventory` (lines 63-69): the empty marker for an
empty dict, otherwise the mapping itself.  Read-only. -/
def get_inventory (inv : Ledger) : Ledger × Payload :=
  if inv = [] then (inv, .invEmptyPayload "success" emptyMarker)
  else (inv, .invMapPayload "success" inv)

/-- An invocation of one of the two mutating tool functions, for reasoning
about sequences of ledger operations. -/
inductive Op where
  | add (item_name : JVal) (quantity : Int)
  | remove (item_name : JVal) (quantity : Int)
deriving DecidableEq

/-- Apply one operation, returning the new ledger and the payload. -/
def applyOp (inv : Ledger) : Op → Ledger × Payload
  | .add item q => add_item inv item q
  | .remove item q => remove_item inv item q

/-- Apply a sequence of operations left to right. -/
def applyOps (inv : Ledger) : List Op → Ledger
  | [] => inv
  | op :: ops => applyOps (applyOp inv op).1 ops

/-- Sum of the quantities of the `add` operations on key `k` whose payload has
status `success`, along the run starting from `inv`. -/
def addedSum (inv : Ledger) (k : JVal) : List Op → Int
  | [] => 0
  | op :: ops =>
    (match op with
     | .add i q => if i = k ∧ (applyOp inv op).2.status = "success" then q else 0
     | .remove _ _ => 0) + addedSum (applyOp inv op).1 k ops

/-- Sum of the quantities of the `remove` operations on key `k` whose payload
has status `success`, along the run starting from `inv`. -/
def removedSum (inv : Ledger) (k : JVal) : List Op → Int
  | [] => 0
  | op :: ops =>
    (match op with
     | .add _ _ => 0
     | .remove i q => if i = k ∧ (applyOp inv op).2.status = "success" then q else 0) +
    removedSum (applyOp inv op).1 k ops

/-- An operation that is either a `remove` or an `add` of positive quantity. -/
def positiveAdd : Op → Bool
  | .add _ q => decide (0 < q)
  | .remove _ _ => true

/-- Every `add` in the sequence carries a positive quantity. -/
def positiveAdds (ops : List Op) : Bool :=
  ops.all positiveAdd

/-- A Python exception value, as far as the modelled control flow needs to
distinguish them.  Exception message texts (`str(e)`) are modelled nominally
by the carried string. -/
inductive PyExn where
  | typeError (msg : String)
  | nameError (missing : String)
  | otherError (msg : String)
deriving DecidableEq

/-- Rendering `str(e)` for the f-strings of `_execute_tool_call`. -/
def PyExn.render : PyExn → String
  | .typeError m => m
  | .nameError n => "name \x27" ++ n ++ "\x27 is not defined"
  | .otherError m => m

/-- The `function` member of a tool call from the backend.  `arguments` is the
outcome of `json.loads` on the raw argument string (an external library call):
`none` models a `json.JSONDecodeError`, `some kwargs` the parsed JSON object.
`json.loads` never yields duplicate keys, and payloads parsing to a non-object
are outside the modelled input space. -/
structure ToolFunction where
  name : String
  arguments : Option (List (String × JVal))
deriving DecidableEq

/-- A tool call from the backend (`tool_call.id`, `tool_call.function`). -/
structure ToolCall where
  id : String
  function : ToolFunction
deriving DecidableEq

/-- The message `_execute_tool_call` appends: `tool_call_id`, `role`, `name`,
plus `content` (the serialised payload, modelled structurally). -/
structure ToolMessage where
  tool_call_id : String
  role : String
  name : String
  content : Payload
deriving DecidableEq

/-- The keys of the `available_functions` dict (lines 117-121). -/
def available_function_names : List String := ["add_item", "remove_item", "get_inventory"]

/-- First value bound to keyword `k` in a parsed argument object. -/
def kwLookup : List (String × JVal) → String → Option JVal
  | [], _ => none
  | (k', v) :: rest, k => if k' = k then some v else kwLookup rest k

/-- Python keyword-argument binding for a function with exactly the two
required parameters `item_name` and `quantity`: any missing or extra keyword
raises `TypeError` at the call (`f(**function_args)`). -/
def bindItemQuantity (args : List (String × JVal)) : Option (JVal × JVal) :=
  if args.length = 2 then
    match kwLookup args "item_name", kwLookup args "quantity" with
    | some i, some q => some (i, q)
    | _, _ => none
  else none

/-- Calling `function_to_call(**function_args)` for a catalog function
(`fname` is one of `available_function_names`).  Returns the new ledger and
either the returned payload or the raised exception:
keyword-binding failures raise `TypeError`; a non-integer `quantity` raises
`TypeError` inside the body (`int + quantity` in `add_item`, the comparison
`inventory[item_name] < quantity` in `remove_item` — the latter only after the
`item_name not in inventory` check, which returns the not-found payload
first); `get_inventory` takes no parameters.  The ledger is unchanged on every
raising path, since each raise happens before any dict write. -/
def callAvailableFunction (inv : Ledger) (fname : String)
    (args : List (String × JVal)) : Ledger × Except PyExn Payload :=
  if fname = "add_item" then
    match bindItemQuantity args with
    | none => (inv, .error (.typeError ("add_item() got bad keyword arguments")))
    | some (item, q) =>
      match q with
      | .jint n => ((add_item inv item n).1, .ok (add_item inv item n).2)
      | _ => (inv, .error (.typeError "unsupported operand type(s) for +"))
  else if fname = "remove_item" then
    match bindItemQuantity args with
    | none => (inv, .error (.typeError ("remove_item() got bad keyword arguments")))
    | some (item, q) =>
      match lookup inv item with
      | none => (inv, .ok (.msgPayload "error" (notFoundMsg item)))
      | some _ =>
        match q with
        | .jint n => ((remove_item inv item n).1, .ok (remove_item inv item n).2)
        | _ => (inv, .error (.typeError "unsupported comparison int < non-int"))
  else
    if args.length = 0 then ((get_inventory inv).1, .ok (get_inventory inv).2)
    else (inv, .error (.typeError "get_inventory() takes 0 positional arguments"))

/-- The executor `_execute_tool_call` (lines 125-170).  It always produces
exactly one tool message — every failure mode is converted to a structured
error payload, none escapes:
a name outside `available_functions` yields the not-found error (lines
141-144); a `JSONDecodeError` from parsing the arguments yields the malformed
JSON error (lines 153-157); a `TypeError` from the call yields the
bad-arguments error (lines 158-162); any other exception yields the
execution-failure error (lines 163-167). -/
def execute_tool_call (inv : Ledger) (tool_call : ToolCall) : Ledger × ToolMessage :=
  let function_name := tool_call.function.name
  if function_name ∈ available_function_names then
    match tool_call.function.arguments with
    | none =>
      (inv, ⟨tool_call.id, "tool", function_name,
        .msgPayload "error" "Неверный формат JSON аргументов."⟩)
    | some function_args =>
      match callAvailableFunction inv function_name function_args with
      | (inv', .ok payload) => (inv', ⟨tool_call.id, "tool", function_name, payload⟩)
      | (inv', .error (.typeError m)) =>
        (inv', ⟨tool_call.id, "tool", function_name,
          .msgPayload "error"
            ("Неверные аргументы для функции " ++ function_name ++ ": " ++ m)⟩)
      | (inv', .error e) =>
        (inv', ⟨tool_call.id, "tool", function_name,
          .msgPayload "error"
            ("Ошибка при выполнении функции " ++ function_name ++ ": " ++ e.render)⟩)
  else
    (inv, ⟨tool_call.id, "tool", function_name,
      .msgPayload "error" ("Функция \x27" ++ function_name ++ "\x27 не найдена.")⟩)

/-- The loop `for tool_call in tool_calls: _execute_tool_call(...)` of
`run_conversation` (lines 195-196): execute the batch in order, threading the
ledger and collecting one tool message per call. -/
def executeBatch (inv : Ledger) : List ToolCall → Ledger × List ToolMessage
  | [] => (inv, [])
  | c :: cs =>
    let r := execute_tool_call inv c
    let rest := executeBatch r.1 cs
    (rest.1, r.2 :: rest.2)

/-- One entry of the `messages` list: the system prompt, a user utterance, a
plain assistant reply (`{"role": "assistant", "content": ...}`), the assistant
message carrying a batch of tool calls (kept with the call ids the backend
assigned), or a tool-result message. -/
inductive Turn where
  | system (content : String)
  | user (content : String)
  | assistantText (content : String)
  | assistantCalls (ids : List String)
  | toolResult (tool_call_id : String) (name : String) (content : Payload)
deriving DecidableEq

/-- The history bound `MAX_HISTORY` (line 26): the maximum number of
non-system messages kept, per the source comment. -/
def MAX_HISTORY : Nat := 10

/-- The last `n` elements of a list — Python slice `xs[-n:]` for `n ≤ len`. -/
def lastN {α : Type} (n : Nat) (xs : List α) : List α :=
  xs.drop (xs.length - n)

/-- The history trim in `main` (lines 263-265):
`if len(messages) > MAX_HISTORY + 1: messages = [messages[0]] + messages[-MAX_HISTORY:]`. -/
def trimHistory (messages : List Turn) : List Turn :=
  if messages.length > MAX_HISTORY + 1 then
    messages.take 1 ++ lastN MAX_HISTORY messages
  else messages

/-- Auxiliary well-formedness scanner.  `pending` is the list of tool-call ids
of the currently open request group that still await their result turns, in
order; with `pending = []` the scanner accepts any turn except an orphaned
tool result and opens a group at each `assistantCalls` turn. -/
def wfAux : List String → List Turn → Bool
  | [], [] => true
  | [], Turn.assistantCalls ids :: rest => wfAux ids rest
  | [], Turn.toolResult _ _ _ :: _ => false
  | [], _ :: rest => wfAux [] rest
  | _ :: _, [] => false
  | id :: ids, Turn.toolResult tid _ _ :: rest => tid = id && wfAux ids rest
  | _ :: _, _ :: _ => false

/-- The transcript invariant: every `assistantCalls` turn is immediately
followed by exactly one tool-result turn per requested call, carrying the
matching call ids in order, and no tool-result turn appears anywhere else. -/
def wellFormed (messages : List Turn) : Bool :=
  wfAux [] messages

/-- True when the list does not start with a tool-result turn (so a cut at
its head does not fall inside a request/result group). -/
def headNotToolResult : List Turn → Bool
  | Turn.toolResult _ _ _ :: _ => false
  | _ => true

/-- The kinds of exception the two `client.chat.completions.create` calls can
raise, as distinguished by the `except` clauses of `run_conversation` (lines
211-219): `openai.APIError`, `openai.AuthenticationError`, anything else. -/
inductive BackendFailure where
  | apiError (msg : String)
  | authError
  | unexpected (msg : String)
deriving DecidableEq

/-- Outcome of one backend call: a returned assistant message, or a raised
exception.  The backend is an external collaborator, so each call's outcome is
an input of the model. -/
inductive ApiResult where
  | ok (content : Option String) (tool_calls : Option (List ToolCall))
  | fail (f : BackendFailure)

/-- Names defined at module level of `warehouse_agent.py` that the colored
`print` calls refer to: lines 20-23 define exactly `GREEN`, `YELLOW`, `GRAY`
and `RESET`.  `RED` is referenced (lines 212, 215, 218, 278) but never
defined. -/
def moduleColorConstants : List String := ["GREEN", "YELLOW", "GRAY", "RESET"]

/-- Python name resolution for a module-level constant used inside an
f-string: an undefined name raises `NameError` when the f-string is
evaluated. -/
def evalColorName (n : String) : Except PyExn String :=
  if n ∈ moduleColorConstants then .ok n else .error (.nameError n)

/-- The user-facing apology string each `except` clause of `run_conversation`
would return (lines 213, 216, 219). -/
def apologyText : BackendFailure → String
  | .apiError e => "Извините, произошла ошибка при связи с моделью ИИ: " ++ e
  | .authError => "Ошибка аутентификации: Убедитесь, что ваш OPENAI_API_KEY установлен правильно."
  | .unexpected _ => "Извините, произошла непредвиденная ошибка."

/-- One `except` clause of `run_conversation` (lines 211-219).  Each clause
first executes `print(f"{RED}...{RESET}")`, which evaluates the module-level
name `RED`; only if that evaluation succeeds does the clause reach its
`return` statement with the apology string.  An exception raised inside an
`except` clause propagates out of `run_conversation` (it is not caught by the
sibling clauses). -/
def exceptClause (f : BackendFailure) : Except PyExn String :=
  match evalColorName "RED" with
  | .error e => .error e
  | .ok _ => .ok (apologyText f)

/-- The dialogue controller `run_conversation` (lines 173-221), over one user
turn.  Inputs: the ledger, the transcript, and the outcomes of the (at most
two) backend calls.  Output: the ledger, the transcript with the turns the
function appended (the assistant tool-call message and one tool message per
call, lines 193-196), and either the returned `str | None` or the exception
that propagates out of the function.  Python truthiness of `tool_calls`: only
a non-empty list enters the tool branch. -/
def run_conversation (inv : Ledger) (messages : List Turn)
    (first second : ApiResult) :
    Ledger × List Turn × Except PyExn (Option String) :=
  match first with
  | .fail f => (inv, messages, (exceptClause f).map (fun s => some s))
  | .ok content tool_calls =>
    match tool_calls with
    | some (c :: cs) =>
      let messages1 := messages ++ [Turn.assistantCalls ((c :: cs).map ToolCall.id)]
      let batch := executeBatch inv (c :: cs)
      let messages2 := messages1 ++
        batch.2.map (fun m => Turn.toolResult m.tool_call_id m.name m.content)
      match second with
      | .fail f => (batch.1, messages2, (exceptClause f).map (fun s => some s))
      | .ok content2 _ => (batch.1, messages2, .ok content2)
    | _ => (inv, messages, .ok content)

/-- One iteration of the REPL body in `main` after reading a non-exit user
input (lines 257-281): append the user turn, trim the history, call
`run_conversation`, then print and append the assistant reply.  The only
`try` in the loop guards `input()` (line 245-250), so an exception raised by
`run_conversation` propagates and aborts the process (modelled as `.error`).
A falsy reply (`None` or the empty string) takes the `else` branch (line
278), whose `print` also references the undefined name `RED`. -/
def replStep (inv : Ledger) (messages : List Turn) (user_input : String)
    (first second : ApiResult) : Except PyExn (Ledger × List Turn) :=
  let messages1 := trimHistory (messages ++ [Turn.user user_input])
  match run_conversation inv messages1 first second with
  | (_, _, .error e) => .error e
  | (inv', messages2, .ok response) =>
    match response with
    | some s =>
      if s = "" then (evalColorName "RED").map (fun _ => (inv', messages2))
      else .ok (inv', messages2 ++ [Turn.assistantText s])
    | none => (evalColorName "RED").map (fun _ => (inv', messages2))

/-- Invariant of every ledger reachable from the empty dict under positive
adds: keys are unique (dict semantics) and every stored quantity is strictly
positive. -/
def GoodLedger (inv : Ledger) : Prop :=
  nodupKeys inv = true ∧ ∀ k v, lookup inv k = some v → 0 < v

/-- A 25-turn transcript (turn 0 is the system turn), for exercising the
history trim on the spec's worked example. -/
def ex25 : List Turn :=
  Turn.system "s" :: List.replicate 24 (Turn.user "u")

/-- A well-formed 12-turn transcript whose turn at position 2 (the earliest
turn the trim retains besides turn 0, since 12 - MAX_HISTORY = 2) is the tool
result of the request turn at position 1: trimming cuts between them. -/
def exSplit : List Turn :=
  [Turn.system "s", Turn.assistantCalls ["c1"],
   Turn.toolResult "c1" "add_item" (Payload.msgPayload "success" "m"),
   Turn.user "u", Turn.assistantText "a", Turn.user "u", Turn.assistantText "a",
   Turn.user "u", Turn.assistantText "a", Turn.user "u", Turn.assistantText "a",
   Turn.user "u"]

/-- The non-system part of a well-formed 12-turn transcript whose request and
result turns sit at positions 2 and 3, so the trim cut (at position 2) does
not fall inside the group. -/
def exNoSplitTail : List Turn :=
  [Turn.user "u", Turn.assistantCalls ["c1"],
   Turn.toolResult "c1" "add_item" (Payload.msgPayload "success" "m"),
   Turn.user "u", Turn.assistantText "a", Turn.user "u", Turn.assistantText "a",
   Turn.user "u", Turn.assistantText "a", Turn.user "u", Turn.assistantText "a"]

/-- A tool call whose operation name is outside the catalog. -/
def unknownCall : ToolCall := ⟨"call_1", ⟨"drop_table", some []⟩⟩

/-- A tool call whose raw argument string failed JSON parsing. -/
def malformedCall : ToolCall := ⟨"call_2", ⟨"add_item", none⟩⟩

/-- Concrete operation sequence for the accounting witness. -/
def opsAccounting : List Op :=
  [Op.add (JVal.jstr "x") 5, Op.remove (JVal.jstr "x") 2,
   Op.remove (JVal.jstr "y") 1, Op.add (JVal.jstr "x") 3]

/-- Concrete operation sequence driving an item to zero by removal. -/
def opsToZero : List Op :=
  [Op.add (JVal.jstr "a") 2, Op.remove (JVal.jstr "a") 2]

/- Lemmas about the dict model. -/

theorem lookup_setVal_self (inv : Ledger) (k : JVal) (v : Int) :
    lookup (setVal inv k v) k = some v := by
  induction inv with
  | nil => simp [setVal, lookup]
  | cons p rest ih =>
    obtain ⟨a, b⟩ := p
    by_cases h : a = k
    · subst h; simp [setVal, lookup]
    · simp [setVal, lookup, h, ih]

theorem lookup_setVal_ne (inv : Ledger) (k k' : JVal) (v : Int) (h : k' ≠ k) :
    lookup (setVal inv k v) k' = lookup inv k' := by
  induction inv with
  | nil => simp [setVal, lookup, Ne.symm h]
  | cons p rest ih =>
    obtain ⟨a, b⟩ := p
    by_cases hk : a = k
    · subst hk; simp [setVal, lookup, Ne.symm h]
    · by_cases hk' : a = k'
      · subst hk'; simp [setVal, lookup, hk]
      · simp [setVal, lookup, hk, hk', ih]

theorem lookup_delKey_ne (inv : Ledger) (k k' : JVal) (h : k' ≠ k) :
    lookup (delKey inv k) k' = lookup inv k' := by
  induction inv with
  | nil => simp [delKey]
  | cons p rest ih =>
    obtain ⟨a, b⟩ := p
    by_cases hk : a = k
    · subst hk; simp [delKey, lookup, Ne.symm h]
    · by_cases hk' : a = k'
      · subst hk'; simp [delKey, lookup, hk]
      · simp [delKey, lookup, hk, hk', ih]

theorem lookup_delKey_self (inv : Ledger) (k : JVal) (h : nodupKeys inv = true) :
    lookup (delKey inv k) k = none := by
  induction inv with
  | nil => simp [delKey, lookup]
  | cons p rest ih =>
    obtain ⟨a, b⟩ := p
    have h1 : (lookup rest a).isNone = true ∧ nodupKeys rest = true := by
      simpa [nodupKeys] using h
    by_cases hk : a = k
    · subst hk
      simp [delKey, Option.isNone_iff_eq_none.mp h1.1]
    · simp [delKey, lookup, hk, ih h1.2]

theorem nodupKeys_setVal (inv : Ledger) (k : JVal) (v : Int)
    (h : nodupKeys inv = true) : nodupKeys (setVal inv k v) = true := by
  induction inv with
  | nil => simp [setVal, nodupKeys, lookup]
  | cons p rest ih =>
    obtain ⟨a, b⟩ := p
    have h1 : (lookup rest a).isNone = true ∧ nodupKeys rest = true := by
      simpa [nodupKeys] using h
    by_cases hk : a = k
    · subst hk; simp [setVal, nodupKeys, h1.1, h1.2]
    · have hlk : lookup (setVal rest k v) a = lookup rest a :=
        lookup_setVal_ne rest k a v hk
      simp [setVal, nodupKeys, hk, hlk, h1.1, ih h1.2]

theorem nodupKeys_delKey (inv : Ledger) (k : JVal)
    (h : nodupKeys inv = true) : nodupKeys (delKey inv k) = true := by
  induction inv with
  | nil => simp [delKey, nodupKeys]
  | cons p rest ih =>
    obtain ⟨a, b⟩ := p
    have h1 : (lookup rest a).isNone = true ∧ nodupKeys rest = true := by
      simpa [nodupKeys] using h
    by_cases hk : a = k
    · subst hk; simpa [delKey] using h1.2
    · have hlk : lookup (delKey rest k) a = lookup rest a :=
        lookup_delKey_ne rest k a hk
      simp [delKey, nodupKeys, hk, hlk, h1.1, ih h1.2]

/-- C7: for every item name absent from the ledger and every quantity,
`remove_item` returns the status-error payload stating the item was not found,
and leaves the ledger completely unchanged. -/
theorem remove_item_absent_not_found (inv : Ledger) (item : JVal) (q : Int)
    (h : lookup inv item = none) :
    remove_item inv item q = (inv, .msgPayload "error" (notFoundMsg item)) := by
  simp [remove_item, h]

/-- Witness for C7 at a concrete input: removing from an empty ledger. -/
theorem remove_item_absent_not_found_witness :
    lookup [] (JVal.jstr "яблоко") = none ∧
    remove_item [] (JVal.jstr "яблоко") 3 =
      ([], .msgPayload "error" (notFoundMsg (JVal.jstr "яблоко"))) :=
  ⟨rfl, remove_item_absent_not_found [] (JVal.jstr "яблоко") 3 rfl⟩

/-- C8: for every item stored with quantity `s` and every requested quantity
`q` with `s < q`, `remove_item` returns the status-error payload whose message
reports the current quantity `s` exactly, and leaves the ledger completely
unchanged. -/
theorem remove_item_insufficient_reports_stock (inv : Ledger) (item : JVal)
    (q s : Int) (hs : lookup inv item = some s) (hlt : s < q) :
    remove_item inv item q = (inv, .msgPayload "error" (insufficientMsg item s)) := by
  simp [remove_item, hs, hlt]

/-- Witness for C8 at a concrete input: 3 apples in stock, 5 requested; the
message carries the stored quantity 3. -/
theorem remove_item_insufficient_reports_stock_witness :
    lookup [(JVal.jstr "apples", 3)] (JVal.jstr "apples") = some 3 ∧ (3 : Int) < 5 ∧
    remove_item [(JVal.jstr "apples", 3)] (JVal.jstr "apples") 5 =
      ([(JVal.jstr "apples", 3)],
       .msgPayload "error" (insufficientMsg (JVal.jstr "apples") 3)) :=
  ⟨by decide, by decide,
   remove_item_insufficient_reports_stock [(JVal.jstr "apples", 3)]
     (JVal.jstr "apples") 5 3 (by decide) (by decide)⟩

/-- C10: `add_item` validates nothing — for every ledger, every key (any JSON
value the backend sent as item name, including the empty string) and every
integer quantity (including zero and negatives), it returns a status-success
payload, stores the previous quantity plus `quantity` under the key, and
leaves every other key unchanged.  In particular a caller can drive a stored
quantity to zero or below through `add_item` alone. -/
theorem add_item_no_validation (inv : Ledger) (item : JVal) (q : Int) :
    (add_item inv item q).2.status = "success" ∧
    lookup (add_item inv item q).1 item = some ((lookup inv item).getD 0 + q) ∧
    ∀ k, k ≠ item → lookup (add_item inv item q).1 k = lookup inv k := by
  refine ⟨rfl, ?_, ?_⟩
  · simpa [add_item] using lookup_setVal_self inv item ((lookup inv item).getD 0 + q)
  · intro k hk
    simpa [add_item] using
      lookup_setVal_ne inv item k ((lookup inv item).getD 0 + q) hk

/-- Witness for C10 at concrete inputs: adding 0 of the empty item name
succeeds and stores the quantity 0; adding -5 stores the quantity -5. -/
theorem add_item_no_validation_witness :
    (add_item [] (JVal.jstr "") 0).2.status = "success" ∧
    lookup (add_item [] (JVal.jstr "") 0).1 (JVal.jstr "") = some 0 ∧
    lookup (add_item [] (JVal.jstr "x") (-5)).1 (JVal.jstr "x") = some (-5) :=
  ⟨(add_item_no_validation [] (JVal.jstr "") 0).1,
   ((add_item_no_validation [] (JVal.jstr "") 0).2.1).trans (by decide),
   ((add_item_no_validation [] (JVal.jstr "x") (-5)).2.1).trans (by decide)⟩

/-- C9: whenever `remove_item item q` succeeds (the item is stored with
quantity at least `q`), following it with `add_item item q` restores exactly
the ledger state before the removal (as a mapping — the notion of equality of
Python dicts), including the case where the removal deleted the entry because
the quantity reached zero.  The `nodupKeys` hypothesis is the dict-key
uniqueness every reachable ledger satisfies. -/
theorem remove_then_add_roundtrip (inv : Ledger) (item : JVal) (q s : Int)
    (hnd : nodupKeys inv = true) (hs : lookup inv item = some s)
    (hq : ¬ s < q) :
    ∀ k, lookup (add_item (remove_item inv item q).1 item q).1 k = lookup inv k := by
  intro k
  by_cases hzero : s - q = 0
  · have hrem : (remove_item inv item q).1 = delKey (setVal inv item (s - q)) item := by
      simp [remove_item, hs, hq, hzero]
    by_cases hk : k = item
    · subst hk
      have hdel : lookup (delKey (setVal inv k (s - q)) k) k = none :=
        lookup_delKey_self (setVal inv k (s - q)) k (nodupKeys_setVal inv k (s - q) hnd)
      have hadd : lookup (add_item (remove_item inv k q).1 k q).1 k
          = some ((lookup (remove_item inv k q).1 k).getD 0 + q) := by
        simpa [add_item] using
          lookup_setVal_self (remove_item inv k q).1 k
            ((lookup (remove_item inv k q).1 k).getD 0 + q)
      rw [hadd, hrem, hdel, hs]
      simp only [Option.getD_none, Option.some.injEq]
      omega
    · have hadd : lookup (add_item (remove_item inv item q).1 item q).1 k
          = lookup (remove_item inv item q).1 k := by
        simpa [add_item] using
          lookup_setVal_ne (remove_item inv item q).1 item k
            ((lookup (remove_item inv item q).1 item).getD 0 + q) hk
      rw [hadd, hrem, lookup_delKey_ne _ _ _ hk, lookup_setVal_ne _ _ _ _ hk]
  · have hrem : (remove_item inv item q).1 = setVal inv item (s - q) := by
      simp [remove_item, hs, hq, hzero]
    by_cases hk : k = item
    · subst hk
      have hadd : lookup (add_item (remove_item inv k q).1 k q).1 k
          = some ((lookup (remove_item inv k q).1 k).getD 0 + q) := by
        simpa [add_item] using
          lookup_setVal_self (remove_item inv k q).1 k
            ((lookup (remove_item inv k q).1 k).getD 0 + q)
      rw [hadd, hrem, lookup_setVal_self, hs]
      simp only [Option.getD_some, Option.some.injEq]
      omega
    · have hadd : lookup (add_item (remove_item inv item q).1 item q).1 k
          = lookup (remove_item inv item q).1 k := by
        simpa [add_item] using
          lookup_setVal_ne (remove_item inv item q).1 item k
            ((lookup (remove_item inv item q).1 item).getD 0 + q) hk
      rw [hadd, hrem, lookup_setVal_ne _ _ _ _ hk]

/-- Witness for C9 at a concrete input exercising the deletion case: removing
all 2 units of an item deletes its entry, and re-adding 2 restores the
original mapping. -/
theorem remove_then_add_roundtrip_witness :
    nodupKeys [(JVal.jstr "a", 2), (JVal.jstr "b", 5)] = true ∧
    lookup [(JVal.jstr "a", 2), (JVal.jstr "b", 5)] (JVal.jstr "a") = some 2 ∧
    lookup
      (add_item (remove_item [(JVal.jstr "a", 2), (JVal.jstr "b", 5)]
        (JVal.jstr "a") 2).1 (JVal.jstr "a") 2).1 (JVal.jstr "a")
      = lookup [(JVal.jstr "a", 2), (JVal.jstr "b", 5)] (JVal.jstr "a") :=
  ⟨by decide, by decide,
   remove_then_add_roundtrip [(JVal.jstr "a", 2), (JVal.jstr "b", 5)]
     (JVal.jstr "a") 2 2 (by decide) (by decide) (by decide) (JVal.jstr "a")⟩

theorem goodLedger_nil : GoodLedger [] := by
  refine ⟨rfl, ?_⟩
  intro k v hkv
  simp [lookup] at hkv

theorem addedSum_cons (inv : Ledger) (k : JVal) (op : Op) (ops : List Op) :
    addedSum inv k (op :: ops)
      = addedSum inv k [op] + addedSum (applyOp inv op).1 k ops := by
  cases op <;> simp [addedSum]

theorem removedSum_cons (inv : Ledger) (k : JVal) (op : Op) (ops : List Op) :
    removedSum inv k (op :: ops)
      = removedSum inv k [op] + removedSum (applyOp inv op).1 k ops := by
  cases op <;> simp [removedSum]

theorem applyOp_step (inv : Ledger) (op : Op) (hg : GoodLedger inv)
    (hop : ∀ i q, op = Op.add i q → 0 < q) :
    GoodLedger (applyOp inv op).1 ∧
    ∀ k, (lookup (applyOp inv op).1 k).getD 0
      = (lookup inv k).getD 0 + (addedSum inv k [op] - removedSum inv k [op]) := by
  have herrsucc : ("error" : String) ≠ "success" := by decide
  cases op with
  | add i q =>
    have hq : 0 < q := hop i q rfl
    constructor
    · constructor
      · exact nodupKeys_setVal inv i ((lookup inv i).getD 0 + q) hg.1
      · intro k v hkv
        by_cases hk : k = i
        · subst hk
          rw [show (applyOp inv (Op.add k q)).1
              = setVal inv k ((lookup inv k).getD 0 + q) from rfl,
            lookup_setVal_self] at hkv
          cases hlk : lookup inv k with
          | none => rw [hlk] at hkv; simp at hkv; omega
          | some w =>
            have hw := hg.2 k w hlk
            rw [hlk] at hkv; simp at hkv; omega
        · rw [show (applyOp inv (Op.add i q)).1
              = setVal inv i ((lookup inv i).getD 0 + q) from rfl,
            lookup_setVal_ne inv i k _ hk] at hkv
          exact hg.2 k v hkv
    · intro k
      have hsucc : (applyOp inv (Op.add i q)).2.status = "success" := rfl
      by_cases hk : i = k
      · subst hk
        rw [show (applyOp inv (Op.add i q)).1
            = setVal inv i ((lookup inv i).getD 0 + q) from rfl,
          lookup_setVal_self]
        simp [addedSum, removedSum, hsucc]
      · rw [show (applyOp inv (Op.add i q)).1
            = setVal inv i ((lookup inv i).getD 0 + q) from rfl,
          lookup_setVal_ne inv i k _ (Ne.symm hk)]
        simp [addedSum, removedSum, hk]
  | remove i q =>
    cases hlk : lookup inv i with
    | none =>
      have happ : applyOp inv (Op.remove i q)
          = (inv, .msgPayload "error" (notFoundMsg i)) := by
        simp [applyOp, remove_item, hlk]
      constructor
      · rw [happ]; exact hg
      · intro k
        rw [happ]
        simp [addedSum, removedSum, happ, Payload.status, herrsucc]
    | some s =>
      by_cases hlt : s < q
      · have happ : applyOp inv (Op.remove i q)
            = (inv, .msgPayload "error" (insufficientMsg i s)) := by
          simp [applyOp, remove_item, hlk, hlt]
        constructor
        · rw [happ]; exact hg
        · intro k
          rw [happ]
          simp [addedSum, removedSum, happ, Payload.status, herrsucc]
      · by_cases hz : s - q = 0
        · have happ : (applyOp inv (Op.remove i q)).1
              = delKey (setVal inv i (s - q)) i := by
            simp [applyOp, remove_item, hlk, hlt, hz]
          have hsucc : (applyOp inv (Op.remove i q)).2.status = "success" := by
            simp [applyOp, remove_item, hlk, hlt, hz, Payload.status]
          have hndset : nodupKeys (setVal inv i (s - q)) = true :=
            nodupKeys_setVal inv i (s - q) hg.1
          constructor
          · constructor
            · rw [happ]; exact nodupKeys_delKey _ i hndset
            · intro k v hkv
              rw [happ] at hkv
              by_cases hk : k = i
              · subst hk
                rw [lookup_delKey_self _ k hndset] at hkv
                exact absurd hkv (by simp)
              · rw [lookup_delKey_ne _ _ _ hk, lookup_setVal_ne _ _ _ _ hk] at hkv
                exact hg.2 k v hkv
          · intro k
            rw [happ]
            by_cases hk : i = k
            · subst hk
              rw [lookup_delKey_self _ i hndset]
              simp [addedSum, removedSum, hsucc, hlk]
              omega
            · rw [lookup_delKey_ne _ _ _ (Ne.symm hk),
                lookup_setVal_ne _ _ _ _ (Ne.symm hk)]
              simp [addedSum, removedSum, hk]
        · have happ : (applyOp inv (Op.remove i q)).1 = setVal inv i (s - q) := by
            simp [applyOp, remove_item, hlk, hlt, hz]
          have hsucc : (applyOp inv (Op.remove i q)).2.status = "success" := by
            simp [applyOp, remove_item, hlk, hlt, hz, Payload.status]
          constructor
          · constructor
            · rw [happ]; exact nodupKeys_setVal inv i (s - q) hg.1
            · intro k v hkv
              rw [happ] at hkv
              by_cases hk : k = i
              · subst hk
                rw [lookup_setVal_self] at hkv
                have : v = s - q := by simpa using hkv.symm
                omega
              · rw [lookup_setVal_ne _ _ _ _ hk] at hkv
                exact hg.2 k v hkv
          · intro k
            rw [happ]
            by_cases hk : i = k
            · subst hk
              rw [lookup_setVal_self]
              simp [addedSum, removedSum, hsucc, hlk]
              omega
            · rw [lookup_setVal_ne _ _ _ _ (Ne.symm hk)]
              simp [addedSum, removedSum, hk]

theorem applyOps_accounting (ops : List Op) : ∀ inv : Ledger, GoodLedger inv →
    positiveAdds ops = true →
    GoodLedger (applyOps inv ops) ∧
    ∀ k, (lookup (applyOps inv ops) k).getD 0
      = (lookup inv k).getD 0 + (addedSum inv k ops - removedSum inv k ops) := by
  induction ops with
  | nil =>
    intro inv hg _
    exact ⟨hg, fun k => by simp [applyOps, addedSum, removedSum]⟩
  | cons op ops ih =>
    intro inv hg hpos
    have hpos1 : positiveAdd op = true ∧ positiveAdds ops = true := by
      simpa [positiveAdds, List.all_cons] using hpos
    have hop : ∀ i q, op = Op.add i q → 0 < q := by
      intro i q he
      subst he
      simpa [positiveAdd] using hpos1.1
    have hstep := applyOp_step inv op hg hop
    have hih := ih (applyOp inv op).1 hstep.1 hpos1.2
    refine ⟨by simpa [applyOps] using hih.1, ?_⟩
    intro k
    have h1 := hstep.2 k
    have h2 := hih.2 k
    have hops : applyOps inv (op :: ops) = applyOps (applyOp inv op).1 ops := rfl
    have hA := addedSum_cons inv k op ops
    have hR := removedSum_cons inv k op ops
    rw [hops, h2, h1, hA, hR]
    omega

/-- C5: starting from the empty ledger, for every sequence of `add` operations
with positive quantities and arbitrary `remove` operations, the stored
quantity of each key equals the sum of the quantities successfully added to it
minus the sum of the quantities successfully removed from it, and it is never
negative. -/
theorem ledger_sum_accounting (ops : List Op) (h : positiveAdds ops = true)
    (k : JVal) :
    (lookup (applyOps [] ops) k).getD 0
      = addedSum [] k ops - removedSum [] k ops ∧
    0 ≤ (lookup (applyOps [] ops) k).getD 0 := by
  have h1 := applyOps_accounting ops [] goodLedger_nil h
  constructor
  · have h2 := h1.2 k
    simpa [lookup] using h2
  · cases hlk : lookup (applyOps [] ops) k with
    | none => simp
    | some v =>
      have hv := h1.1.2 k v hlk
      simp
      omega

/-- Witness for C5 at a concrete sequence: add 5 of x, remove 2 of x, remove 1
of the absent y (a failed removal), add 3 of x; x ends at 6 = 8 - 2. -/
theorem ledger_sum_accounting_witness :
    positiveAdds opsAccounting = true ∧
    ((lookup (applyOps [] opsAccounting) (JVal.jstr "x")).getD 0
       = addedSum [] (JVal.jstr "x") opsAccounting
         - removedSum [] (JVal.jstr "x") opsAccounting ∧
     0 ≤ (lookup (applyOps [] opsAccounting) (JVal.jstr "x")).getD 0) :=
  ⟨by decide, ledger_sum_accounting opsAccounting (by decide) (JVal.jstr "x")⟩

/-- C3 as amended: for sequences whose `add` operations all carry positive
quantities, no entry with quantity 0 (nor any non-positive quantity) persists
in the ledger — an item whose quantity reaches zero through `remove_item` is
deleted.  (`add_item` itself never deletes: see the counterexample theorem for
the `add_item(item, 0)` case the original claim included.) -/
theorem no_zero_entry_of_positive_adds (ops : List Op)
    (h : positiveAdds ops = true) :
    ∀ k, lookup (applyOps [] ops) k ≠ some 0 := by
  intro k hk
  have h1 := (applyOps_accounting ops [] goodLedger_nil h).1
  have := h1.2 k 0 hk
  omega

/-- Counterexample to C3 as stated: the single operation `add_item(item, 0)`
on an item absent from the empty ledger leaves a persistent entry with
quantity exactly 0 — `add_item` never removes an entry. -/
theorem add_zero_persists_zero_entry :
    lookup (applyOps [] [Op.add (JVal.jstr "товар") 0]) (JVal.jstr "товар")
      = some 0 := by decide

/-- Witness for the amended C3 at a concrete sequence: adding 2 of a then
removing 2 of a leaves no zero entry for a. -/
theorem no_zero_entry_of_positive_adds_witness :
    positiveAdds opsToZero = true ∧
    lookup (applyOps [] opsToZero) (JVal.jstr "a") ≠ some 0 :=
  ⟨by decide, no_zero_entry_of_positive_adds opsToZero (by decide) (JVal.jstr "a")⟩

/-- C2 as amended: the trim in `main` fires only when the transcript exceeds
`MAX_HISTORY + 1 = 11` turns (MAX_HISTORY counts the non-system turns), and it
then retains exactly turn 0 plus the most recent `MAX_HISTORY = 10` turns —
not `max_turns - 1 = 9`: the result has 11 turns, its head is turn 0, and its
tail is the last 10 turns of the input. -/
theorem trimHistory_window (msgs : List Turn) :
    (msgs.length ≤ MAX_HISTORY + 1 → trimHistory msgs = msgs) ∧
    (msgs.length > MAX_HISTORY + 1 →
      (trimHistory msgs).length = MAX_HISTORY + 1 ∧
      (trimHistory msgs).take 1 = msgs.take 1 ∧
      (trimHistory msgs).drop 1 = msgs.drop (msgs.length - MAX_HISTORY)) := by
  constructor
  · intro h
    have h' : ¬ msgs.length > MAX_HISTORY + 1 := by omega
    simp [trimHistory, h']
  · intro h
    cases msgs with
    | nil => simp at h
    | cons m0 rest =>
      have htrim : trimHistory (m0 :: rest)
          = m0 :: lastN MAX_HISTORY (m0 :: rest) := by
        simp only [trimHistory]
        rw [if_pos h]
        rfl
      refine ⟨?_, ?_, ?_⟩
      · rw [htrim]
        simp only [List.length_cons, lastN, List.length_drop]
        have hlen : (m0 :: rest).length > MAX_HISTORY + 1 := h
        simp only [List.length_cons] at hlen
        omega
      · rw [htrim]
        simp
      · rw [htrim]
        simp [lastN]

/-- Counterexample to C2 as stated: on a 25-turn transcript the trim yields
turn 0 plus the last 10 turns (11 turns in all), which differs from turn 0
plus the last 9 turns that the claim requires. -/
theorem trim_25_turns_keeps_10_not_9 :
    (trimHistory ex25).length = MAX_HISTORY + 1 ∧
    trimHistory ex25 ≠ ex25.take 1 ++ lastN 9 ex25 := by
  constructor
  · decide
  · decide

/-- Witness for the amended C2 at the 25-turn transcript: 25 > 11, and the
trimmed transcript is turn 0 plus the last 10 turns. -/
theorem trimHistory_window_witness :
    ex25.length > MAX_HISTORY + 1 ∧
    ((trimHistory ex25).length = MAX_HISTORY + 1 ∧
     (trimHistory ex25).take 1 = ex25.take 1 ∧
     (trimHistory ex25).drop 1 = ex25.drop (ex25.length - MAX_HISTORY)) :=
  ⟨by decide, (trimHistory_window ex25).2 (by decide)⟩

theorem wfAux_drop (xs : List Turn) : ∀ (pending : List String) (k : Nat),
    wfAux pending xs = true →
    headNotToolResult (xs.drop k) = true →
    wfAux [] (xs.drop k) = true := by
  induction xs with
  | nil =>
    intro pending k _ _
    simp [List.drop_nil, wfAux]
  | cons t rest ih =>
    intro pending k h hhead
    cases k with
    | zero =>
      simp only [List.drop_zero] at hhead ⊢
      cases pending with
      | nil => exact h
      | cons id ids =>
        cases t with
        | toolResult tid nm c => simp [headNotToolResult] at hhead
        | system c => simp [wfAux] at h
        | user c => simp [wfAux] at h
        | assistantText c => simp [wfAux] at h
        | assistantCalls is2 => simp [wfAux] at h
    | succ k' =>
      simp only [List.drop_succ_cons] at hhead ⊢
      cases pending with
      | nil =>
        cases t with
        | system c => exact ih [] k' (by simpa [wfAux] using h) hhead
        | user c => exact ih [] k' (by simpa [wfAux] using h) hhead
        | assistantText c => exact ih [] k' (by simpa [wfAux] using h) hhead
        | assistantCalls ids => exact ih ids k' (by simpa [wfAux] using h) hhead
        | toolResult tid nm c => simp [wfAux] at h
      | cons id ids =>
        cases t with
        | toolResult tid nm c =>
          have h2 : wfAux ids rest = true := by
            have := h
            simp [wfAux] at this
            exact this.2
          exact ih ids k' h2 hhead
        | system c => simp [wfAux] at h
        | user c => simp [wfAux] at h
        | assistantText c => simp [wfAux] at h
        | assistantCalls is2 => simp [wfAux] at h

/-- C4 as amended: the trim is purely positional, so it preserves the
request/result grouping invariant only when the cut does not fall inside a
group — whenever the transcript starts with the system turn, satisfies the
invariant, and the earliest retained non-system turn (the `MAX_HISTORY`-th
turn from the end) is not an operation-result turn, the trimmed transcript
still satisfies the invariant.  When the cut lands on an operation-result
turn the invariant is broken (see the counterexample theorem). -/
theorem trim_preserves_wellFormed (c : String) (rest : List Turn)
    (hwf : wellFormed (Turn.system c :: rest) = true)
    (hcut : headNotToolResult
      (lastN MAX_HISTORY (Turn.system c :: rest)) = true) :
    wellFormed (trimHistory (Turn.system c :: rest)) = true := by
  by_cases hlen : (Turn.system c :: rest).length > MAX_HISTORY + 1
  · have htrim : trimHistory (Turn.system c :: rest)
        = Turn.system c :: lastN MAX_HISTORY (Turn.system c :: rest) := by
      simp only [trimHistory]
      rw [if_pos hlen]
      rfl
    rw [htrim]
    have h2 : wfAux [] (lastN MAX_HISTORY (Turn.system c :: rest)) = true := by
      have := wfAux_drop (Turn.system c :: rest) []
        ((Turn.system c :: rest).length - MAX_HISTORY) hwf
      exact this hcut
    simpa [wellFormed, wfAux] using h2
  · rw [show trimHistory (Turn.system c :: rest) = Turn.system c :: rest by
      simp only [trimHistory]
      rw [if_neg hlen]]
    exact hwf

/-- Counterexample to C4 as stated: a well-formed 12-turn transcript whose
operation-result turn sits exactly at the trim cut; after the trim the result
turn is orphaned from its requesting assistant turn and the invariant is
broken. -/
theorem trim_splits_request_group :
    wellFormed exSplit = true ∧ wellFormed (trimHistory exSplit) = false := by
  constructor
  · decide
  · decide

/-- Witness for the amended C4 at a concrete transcript whose request/result
group does not straddle the cut. -/
theorem trim_preserves_wellFormed_witness :
    wellFormed (Turn.system "s" :: exNoSplitTail) = true ∧
    headNotToolResult
      (lastN MAX_HISTORY (Turn.system "s" :: exNoSplitTail)) = true ∧
    wellFormed (trimHistory (Turn.system "s" :: exNoSplitTail)) = true :=
  ⟨by decide, by decide,
   trim_preserves_wellFormed "s" exNoSplitTail (by decide) (by decide)⟩

/-- C1 (refuted by the code): on every backend failure — an `openai.APIError`
raised by either `client.chat.completions.create` call, an authentication
error, or any other exception — `run_conversation` does not return an apology
string: the `except` clause evaluates `print(f"{RED}...")` with the undefined
module name `RED`, so a `NameError` propagates out of `run_conversation`; and
since the REPL body in `main` does not catch it, the same `NameError`
propagates out of the whole user-turn step, killing the process instead of
accepting the next user turn. -/
theorem run_conversation_failure_raises_nameError
    (inv : Ledger) (messages : List Turn) (f : BackendFailure)
    (second : ApiResult) (content : Option String) (c : ToolCall)
    (cs : List ToolCall) (u : String) :
    (run_conversation inv messages (.fail f) second).2.2
      = .error (.nameError "RED") ∧
    (run_conversation inv messages
        (.ok content (some (c :: cs))) (.fail f)).2.2
      = .error (.nameError "RED") ∧
    replStep inv messages u (.fail f) second = .error (.nameError "RED") := by
  have hred : evalColorName "RED" = .error (.nameError "RED") := rfl
  have hexc : exceptClause f = .error (.nameError "RED") := by
    simp [exceptClause, hred]
  refine ⟨?_, ?_, ?_⟩
  · simp [run_conversation, hexc, Except.map]
  · simp [run_conversation, hexc, Except.map]
  · simp [replStep, run_conversation, hexc, Except.map]

theorem executeBatch_length (calls : List ToolCall) :
    ∀ inv, (executeBatch inv calls).2.length = calls.length := by
  induction calls with
  | nil => intro inv; rfl
  | cons c cs ih => intro inv; simp [executeBatch, ih]

theorem get_inventory_status (inv : Ledger) :
    (get_inventory inv).2.status = "success" := by
  unfold get_inventory
  split <;> rfl

theorem remove_item_status (inv : Ledger) (i : JVal) (q : Int) :
    (remove_item inv i q).2.status = "success" ∨
    (remove_item inv i q).2.status = "error" := by
  unfold remove_item
  split
  · right; rfl
  · split
    · right; rfl
    · split
      · left; rfl
      · left; rfl

theorem callAvailableFunction_status (inv : Ledger) (fname : String)
    (args : List (String × JVal)) (p : Payload)
    (h : (callAvailableFunction inv fname args).2 = .ok p) :
    p.status = "success" ∨ p.status = "error" := by
  unfold callAvailableFunction at h
  by_cases h1 : fname = "add_item"
  · subst h1
    rcases hb : bindItemQuantity args with _ | ⟨i, q⟩
    · simp [hb] at h
    · cases q with
      | jint n =>
        simp [hb] at h
        left
        rw [← h]
        rfl
      | jstr s => simp [hb] at h
      | jnull => simp [hb] at h
  · by_cases h2 : fname = "remove_item"
    · subst h2
      rcases hb : bindItemQuantity args with _ | ⟨i, q⟩
      · simp [h1, hb] at h
      · cases hlk : lookup inv i with
        | none =>
          simp [h1, hb, hlk] at h
          right
          rw [← h]
          rfl
        | some s =>
          cases q with
          | jint n =>
            simp [h1, hb, hlk] at h
            rw [← h]
            exact remove_item_status inv i n
          | jstr s2 => simp [h1, hb, hlk] at h
          | jnull => simp [h1, hb, hlk] at h
    · by_cases ha : args.length = 0
      · simp [h1, h2, ha] at h
        left
        rw [← h]
        exact get_inventory_status inv
      · simp [h1, h2, ha] at h

/-- C6: for every tool call, `_execute_tool_call` produces exactly one tool
message, tagged with the call id, the role `tool` and the operation name, and
no exception escapes — its content is always a structured payload with status
`success` or `error`.  An operation name outside the catalog yields the error
payload naming the unknown function and leaves the ledger untouched; an
argument payload that is not valid JSON yields the malformed-JSON error
payload and leaves the ledger untouched; and the batch loop executes every
sibling request, producing one message per request. -/
theorem execute_tool_call_contract (inv : Ledger) (tool_call : ToolCall) :
    ((execute_tool_call inv tool_call).2.tool_call_id = tool_call.id ∧
     (execute_tool_call inv tool_call).2.role = "tool" ∧
     (execute_tool_call inv tool_call).2.name = tool_call.function.name) ∧
    ((execute_tool_call inv tool_call).2.content.status = "success" ∨
     (execute_tool_call inv tool_call).2.content.status = "error") ∧
    (tool_call.function.name ∉ available_function_names →
      execute_tool_call inv tool_call
        = (inv, ⟨tool_call.id, "tool", tool_call.function.name,
            .msgPayload "error"
              ("Функция \x27" ++ tool_call.function.name ++
                "\x27 не найдена.")⟩)) ∧
    (tool_call.function.arguments = none →
      (execute_tool_call inv tool_call).1 = inv ∧
      (tool_call.function.name ∈ available_function_names →
        (execute_tool_call inv tool_call).2.content
          = .msgPayload "error" "Неверный формат JSON аргументов.")) ∧
    ∀ calls : List ToolCall,
      (executeBatch inv calls).2.length = calls.length := by
  obtain ⟨cid, fname, args⟩ := tool_call
  refine ⟨?_, ?_, ?_, ?_, fun calls => executeBatch_length calls inv⟩
  · by_cases hmem : fname ∈ available_function_names
    · cases args with
      | none => simp [execute_tool_call, hmem]
      | some a =>
        rcases hc : callAvailableFunction inv fname a with ⟨inv', r⟩
        cases r with
        | ok p => simp [execute_tool_call, hmem, hc]
        | error e => cases e <;> simp [execute_tool_call, hmem, hc]
    · simp [execute_tool_call, hmem]
  · by_cases hmem : fname ∈ available_function_names
    · cases args with
      | none => simp [execute_tool_call, hmem, Payload.status]
      | some a =>
        rcases hc : callAvailableFunction inv fname a with ⟨inv', r⟩
        cases r with
        | ok p =>
          have hstat := callAvailableFunction_status inv fname a p (by rw [hc])
          simpa [execute_tool_call, hmem, hc] using hstat
        | error e => cases e <;> simp [execute_tool_call, hmem, hc, Payload.status]
    · simp [execute_tool_call, hmem, Payload.status]
  · intro h
    simp [execute_tool_call, h]
  · intro harg
    simp only at harg
    subst harg
    by_cases hmem : fname ∈ available_function_names
    · simp [execute_tool_call, hmem]
    · simp [execute_tool_call, hmem]

/-- Witness for C6 at concrete inputs: an unknown operation name and a
malformed argument payload, both on the empty ledger. -/
theorem execute_tool_call_contract_witness :
    execute_tool_call [] unknownCall
      = ([], ⟨"call_1", "tool", "drop_table",
          .msgPayload "error" "Функция \x27drop_table\x27 не найдена."⟩) ∧
    (execute_tool_call [] malformedCall).1 = [] ∧
    (execute_tool_call [] malformedCall).2.content
      = .msgPayload "error" "Неверный формат JSON аргументов." :=
  ⟨((execute_tool_call_contract [] unknownCall).2.2.1 (by decide)).trans
     (by decide),
   ((execute_tool_call_contract [] malformedCall).2.2.2.1 rfl).1,
   ((execute_tool_call_contract [] malformedCall).2.2.2.1 rfl).2 (by decide)⟩

end WarehouseAgent
